import Mathlib

/-!
Verification of the pdfmake rendering backend (src/printer.js) against its
natural-language specification.  The development shallowly embeds, from the
source:

* the per-line structure-tag engine of renderLine (stack of structure
  elements, pending-closure queue, warning-and-continue error policy);
* preparePageNodeRefLine (deferred page-number reference resolution);
* calculatePageHeight (auto-height computation);
* fixPageMargins (margin shape resolution);
* updatePageOrientationInOptions and the page-size evolution of renderPages.

JavaScript strings are modelled as lists of characters, JS numbers that the
claims exercise as rationals or integers, and thrown exceptions as the error
case of Except.  Tag tokens keep the JS typeof-dispatch structure: a string,
an object carrying an optional onetime field, the null value (whose JS typeof
is the string typeof an object), a number, or a boolean.
-/

/-- Tag names used by the nesting-policy tables and by the implicit root. -/
def nDocument : List Char := ['D','o','c','u','m','e','n','t']

def nTable : List Char := ['T','a','b','l','e']

def nTR : List Char := ['T','R']

def nTD : List Char := ['T','D']

def nTH : List Char := ['T','H']

def nL : List Char := ['L']

def nLI : List Char := ['L','I']

def nLbl : List Char := ['L','b','l']

def nLBody : List Char := ['L','B','o','d','y']

def nH : List Char := ['H']

def nH1 : List Char := ['H','1']

def nH2 : List Char := ['H','2']

def nH3 : List Char := ['H','3']

def nH4 : List Char := ['H','4']

def nH5 : List Char := ['H','5']

def nH6 : List Char := ['H','6']

/-- A structure element of the logical tree: pdfKitDoc.struct(name).  The id
distinguishes distinct elements created with the same name. -/
structure StructElem where
  id : Nat
  name : List Char
  deriving DecidableEq, Repr

/-- The implicit document root, created lazily by renderLine on first use. -/
def rootElem : StructElem := { id := 0, name := nDocument }

/-- A tag token of a line, keeping the JS typeof dispatch of renderLine:
strings, objects with an optional onetime field, null (typeof of null is
object in JS), numbers and booleans. -/
inductive JsTag where
  | str (s : List Char)
  | obj (onetime : Option Int)
  | null
  | num (n : Int)
  | bool (b : Bool)
  deriving DecidableEq, Repr

/-- A thrown JS exception (the engine only ever throws TypeError on the
paths modelled here). -/
inductive JsErr where
  | typeError
  deriving DecidableEq, Repr

/-- The mutable state of the tag loop in renderLine: the render stack
pdfKitDoc.stk (head is the top), the pending-closure queue closingsFifo,
the last opened tag and element of this line, and a warning counter standing
for the console.log warnings.  The pops field records, in order, every
element popped from the stack (it mirrors each stk.pop site) and the fresh
field supplies ids for newly created elements. -/
structure TagState where
  stk : List StructElem
  fifo : List StructElem
  pops : List StructElem
  lastTag : Option (List Char)
  lastElem : Option StructElem
  warnings : Nat
  fresh : Nat
  deriving DecidableEq, Repr

/-- The closed allow-list per parent kind (variable good in renderLine). -/
def goodTable : List (List Char × List (List Char)) :=
  [ (nTable, [nTR]), (nTR, [nTD, nTH]), (nL, [nLI]), (nLI, [nLbl, nLBody]) ]

/-- The closed deny-list per parent kind (variable bad in renderLine). -/
def badTable : List (List Char × List (List Char)) :=
  [ (nH, [nH, nTR, nTD, nTH])
  , (nH1, [nH, nH1, nTR, nTD, nTH])
  , (nH2, [nH, nH1, nH2, nTR, nTD, nTH])
  , (nH3, [nH, nH1, nH2, nH3, nTR, nTD, nTH])
  , (nH4, [nH, nH1, nH2, nH3, nH4, nTR, nTD, nTH])
  , (nH5, [nH, nH1, nH2, nH3, nH4, nH5, nTR, nTD, nTH])
  , (nH6, [nH, nH1, nH2, nH3, nH4, nH5, nH6, nTR, nTD, nTH]) ]

/-- Whether opening child under parent violates the nesting policy, which in
renderLine only produces a warning: parent in good with child not allowed, or
parent in bad with child denied. -/
def policyWarn (parent child : List Char) : Bool :=
  (match goodTable.lookup parent with
   | some allowed => !(allowed.contains child)
   | none => false)
  ||
  (match badTable.lookup parent with
   | some denied => denied.contains child
   | none => false)

/-- The loop in the onetime-pop branch of renderLine: repeat k times, enqueue
the current top into closingsFifo and pop the stack. -/
def popLoop : Nat → TagState → TagState
  | 0, st => st
  | k + 1, st =>
    match st.stk with
    | [] => st
    | top :: rest =>
      popLoop k { st with stk := rest, fifo := st.fifo ++ [top], pops := st.pops ++ [top] }

/-- The object branch of the tag loop (lines 539 to 554 of printer.js): read
the onetime field (a missing or zero field is falsy and yields zero pops),
compare with the poppable depth, clamp with a warning when the count exceeds
it, then run the pop loop. -/
def onetimePop (st : TagState) (o : Option Int) : TagState :=
  let pops0 : Int := match o with | some k => if k ≠ 0 then k else 0 | none => 0
  let poppable : Int := (st.stk.length : Int) - 1
  if pops0 > poppable then
    popLoop poppable.toNat { st with warnings := st.warnings + 1 }
  else
    popLoop pops0.toNat st

/-- One iteration of the tag loop of renderLine (the switch on typeof
tagitem).  A string token reads the current top first (topElement of an empty
stack throws in JS), ignores the empty string, opens a fresh child when the
tag does not start with a slash and the line starts a node, and on a closing
tag matches the name against the top: a mismatch is a warning with no pop,
a match enqueues the top into closingsFifo and pops.  An object token, on a
line that ends a node, reads a onetime count (a missing or zero field is
falsy and counts as zero), clamps it to depth minus one with a warning, then
pops that many elements into closingsFifo.  The null value is dispatched as
an object in JS, so reading its onetime field throws.  Numbers and booleans
fall to the default branch: a warning, nothing else. -/
def processTag (starts ends : Bool) (st : TagState) (t : JsTag) : Except JsErr TagState :=
  match t with
  | .str s =>
    match st.stk with
    | [] => .error .typeError
    | top :: rest =>
      let parentItem := top.name
      if s = [] then .ok st
      else
        let isOpening : Bool := !(s.head? == some '/')
        if isOpening && starts then
          let warnInc : Nat := if policyWarn parentItem s then 1 else 0
          let e : StructElem := { id := st.fresh, name := s }
          .ok { st with stk := e :: top :: rest, fresh := st.fresh + 1,
                        lastTag := some s, lastElem := some e,
                        warnings := st.warnings + warnInc }
        else if !isOpening && ends then
          if parentItem ≠ s.tail then
            .ok { st with warnings := st.warnings + 1 }
          else
            .ok { st with stk := rest, fifo := st.fifo ++ [top], pops := st.pops ++ [top] }
        else .ok st
  | .obj o =>
    if ends then .ok (onetimePop st o) else .ok st
  | .null => if ends then .error .typeError else .ok st
  | .num _ => .ok { st with warnings := st.warnings + 1 }
  | .bool _ => .ok { st with warnings := st.warnings + 1 }

/-- The tag loop of renderLine: process the tokens left to right, propagating
a thrown exception. -/
def processTags (starts ends : Bool) : TagState → List JsTag → Except JsErr TagState
  | st, [] => .ok st
  | st, t :: ts =>
    match processTag starts ends st t with
    | .error e => .error e
    | .ok st' => processTags starts ends st' ts

/-- The while loop at the end of renderLine: shift every element out of
closingsFifo and end it, producing the sequence of end calls in order. -/
def endAllFifo : List StructElem → List StructElem
  | [] => []
  | e :: rest => e :: endAllFifo rest

/-- The observable outcome of the structure part of renderLine for one line:
the stack after the line (none when the lazy root was never created), the
warnings emitted, the elements ended and the final pending-closure queue, the
pop order, the marked-content span opened on this line, whether
endMarkedContent ran, and the element a content span was attached to. -/
structure LineResult where
  stk : Option (List StructElem)
  warnings : Nat
  endedElems : List StructElem
  fifoFinal : List StructElem
  popsOrder : List StructElem
  openedSpanTag : Option (List Char)
  endedMarkedContent : Bool
  attachedTo : Option StructElem
  deriving DecidableEq, Repr

/-- The part of renderLine after the tag loop: open a marked-content span if
the line starts a node and a tag was opened; otherwise fall back to the most
recently open span of a prior line; take the first pending closure as the
element to attach to when none was opened; then, if the line ends a node,
attach and end the span per the three-way branch and end every element left
in closingsFifo in order. -/
def finishLine (prevSpan : Option (List Char)) (starts ends : Bool)
    (stkOpt : Option (List StructElem)) (fifo pops : List StructElem)
    (lastTag : Option (List Char)) (lastElem : Option StructElem)
    (warnings : Nat) : LineResult :=
  let openedSpan : Option (List Char) := if starts then lastTag else none
  let structContent : Option (List Char) :=
    match openedSpan with
    | some tg => some tg
    | none => prevSpan
  let lastElem2 : Option StructElem :=
    match lastElem with
    | some e => some e
    | none => fifo.head?
  if ends then
    { stk := stkOpt
      warnings := warnings
      endedElems := endAllFifo fifo
      fifoFinal := fifo
      popsOrder := pops
      openedSpanTag := openedSpan
      endedMarkedContent := structContent.isSome
      attachedTo :=
        match structContent, lastElem2 with
        | some _, some e => some e
        | _, _ => none }
  else
    { stk := stkOpt
      warnings := warnings
      endedElems := []
      fifoFinal := fifo
      popsOrder := pops
      openedSpanTag := openedSpan
      endedMarkedContent := false
      attachedTo := none }

/-- The initial tag-loop state of one line. -/
def emptyTagState (stk : List StructElem) (fresh : Nat) : TagState :=
  { stk := stk, fifo := [], pops := [], lastTag := none, lastElem := none,
    warnings := 0, fresh := fresh }

/-- The structure logic of renderLine over one line, parameterised by the
boolean outcomes of the startsNode and endsNode presence tests.  The tag
phase runs only when the line has tags and at least one of the two flags;
it lazily creates the root stack when absent (prevStk is none). -/
def renderLineCore (prevStk : Option (List StructElem)) (fresh : Nat)
    (prevSpan : Option (List Char)) (tags : List JsTag)
    (starts ends : Bool) : Except JsErr LineResult :=
  if !tags.isEmpty && (starts || ends) then
    let st0 := emptyTagState (prevStk.getD [rootElem]) fresh
    match processTags starts ends st0 tags with
    | .error e => .error e
    | .ok st1 =>
      .ok (finishLine prevSpan starts ends (some st1.stk) st1.fifo st1.pops
            st1.lastTag st1.lastElem st1.warnings)
  else
    .ok (finishLine prevSpan starts ends prevStk [] [] none none 0)

/-- A text line as renderLine sees it for the structure logic: the tag list
and the two optional flags.  The engine tests the flags by property presence,
so each flag is an Option Bool whose value is irrelevant. -/
structure JsLine where
  tags : List JsTag
  startsNodeField : Option Bool
  endsNodeField : Option Bool
  deriving DecidableEq, Repr

/-- The structure logic of renderLine on a line: the startsNode and endsNode
tests are property-presence tests on the line. -/
def renderLineStruct (prevStk : Option (List StructElem)) (fresh : Nat)
    (prevSpan : Option (List Char)) (line : JsLine) : Except JsErr LineResult :=
  renderLineCore prevStk fresh prevSpan line.tags
    line.startsNodeField.isSome line.endsNodeField.isSome

/-- Inline alignment values distinguished by preparePageNodeRefLine. -/
inductive JsAlignment where
  | left
  | right
  | center
  | other
  deriving DecidableEq, Repr

/-- The fields of an inline that preparePageNodeRefLine reads and writes. -/
structure PNInline where
  x : ℚ
  width : ℚ
  alignment : JsAlignment
  deriving DecidableEq, Repr

/-- preparePageNodeRefLine, after the page number has been measured: given
the remeasured width of the replacement text, compute the width delta from
the old width, store the new width, and shift x by the delta for right
alignment and half the delta for center alignment; any other alignment is
the default switch case and leaves x unchanged. -/
def preparePageNodeRef (inl : PNInline) (newWidth : ℚ) : PNInline :=
  let diffWidth := inl.width - newWidth
  let inl1 := { inl with width := newWidth }
  match inl.alignment with
  | .right => { inl1 with x := inl1.x + diffWidth }
  | .center => { inl1 with x := inl1.x + diffWidth / 2 }
  | _ => inl1

/-- A page margins value as calculatePageHeight and fixPageMargins receive
it: a number, an array, an object with the four sides, or any other value. -/
inductive JsMargin where
  | num (q : ℚ)
  | arr (l : List ℚ)
  | obj (left top right bottom : ℚ)
  | other
  deriving DecidableEq, Repr

/-- fixPageMargins: a number is applied to all four sides; an array of two is
horizontal and vertical, an array of four is left, top, right, bottom, and
any other array length throws; every non-number non-array value is returned
unchanged. -/
def fixPageMargins : JsMargin → Except Unit JsMargin
  | .num m => .ok (.obj m m m m)
  | .arr l =>
    match l with
    | [h, v] => .ok (.obj h v h v)
    | [a, b, c, d] => .ok (.obj a b c d)
    | _ => .error ()
  | .obj a b c d => .ok (.obj a b c d)
  | .other => .ok .other

/-- An item on a laid-out page, with the fields calculatePageHeight reads:
whether item.item.getHeight is a function (and what it returns), the cached
item.item._height (absent is none), whether item.type is vector, the y
position (absent is none), and the vector endpoints y1 and y2. -/
structure RItem where
  getHeightResult : Option ℚ
  innerHeight : Option ℚ
  isVector : Bool
  y : Option ℚ
  y1 : ℚ
  y2 : ℚ
  deriving DecidableEq, Repr

/-- A laid-out page as calculatePageHeight reads it. -/
structure RPage where
  items : List RItem
  deriving DecidableEq, Repr

/-- getItemHeight of calculatePageHeight: a getHeight function wins; else a
truthy _height (zero is falsy in JS and falls through); else a vector item
contributes the larger of y1 and y2; anything else contributes zero. -/
def getItemHeight (it : RItem) : ℚ :=
  match it.getHeightResult with
  | some h => h
  | none =>
    match it.innerHeight with
    | some h =>
      if h ≠ 0 then h
      else if it.isVector then (if it.y1 > it.y2 then it.y1 else it.y2) else 0
    | none => if it.isVector then (if it.y1 > it.y2 then it.y1 else it.y2) else 0

/-- getBottomPosition: item.item.y or zero when falsy, plus the height. -/
def getBottomPosition (it : RItem) : ℚ :=
  (match it.y with
   | some v => if v ≠ 0 then v else 0
   | none => 0) + getItemHeight it

/-- The conditional update inside the page scan of calculatePageHeight. -/
def bumpHeight (h : ℚ) (it : RItem) : ℚ :=
  if getBottomPosition it > h then getBottomPosition it else h

/-- Every item of every page in order, for stating the auto-height result. -/
def allItems (pages : List RPage) : List RItem :=
  pages.foldr (fun p acc => p.items ++ acc) []

/-- calculatePageHeight: resolve the margins, start the running height at the
top margin, scan every item of every page keeping the largest bottom
position, and add the bottom margin.  The result is none when the margins do
not resolve to a four-sided object (fixPageMargins threw, or a non-object
slipped through and the arithmetic would be meaningless). -/
def calculatePageHeight (pages : List RPage) (margin : JsMargin) : Option ℚ :=
  match fixPageMargins margin with
  | .ok (.obj _ t _ b) =>
    some ((pages.foldl (fun h page => page.items.foldl bumpHeight h) t) + b)
  | _ => none

/-- Page orientation values. -/
inductive Orient where
  | portrait
  | landscape
  deriving DecidableEq, Repr

/-- The physical size held in pdfKitDoc.options.size. -/
structure SizeWH where
  w : ℚ
  h : ℚ
  deriving DecidableEq, Repr

/-- The orientation implied by a physical size: width strictly greater than
height means landscape, otherwise portrait. -/
def impliedOrientation (s : SizeWH) : Orient :=
  if s.w > s.h then .landscape else .portrait

/-- updatePageOrientationInOptions: swap width and height exactly when the
page orientation differs from the orientation implied by the current
physical size. -/
def updatePageOrientationInOptions (pageOrient : Orient) (s : SizeWH) : SizeWH :=
  if pageOrient ≠ impliedOrientation s then { w := s.h, h := s.w } else s

/-- The sequence of physical sizes with which renderPages adds pages: the
first page uses the initial size, and each subsequent page first runs
updatePageOrientationInOptions on the running size. -/
def renderPageSizes (first : SizeWH) (rest : List Orient) : List SizeWH :=
  List.scanl (fun s o => updatePageOrientationInOptions o s) first rest

/-! ## Helper lemmas -/

lemma endAllFifo_eq (l : List StructElem) : endAllFifo l = l := by
  induction l with
  | nil => rfl
  | cons e rest ih => simp [endAllFifo, ih]

lemma dropAppendOfLe {α : Type} :
    ∀ (n : Nat) (l1 l2 : List α), n ≤ l1.length → (l1 ++ l2).drop n = l1.drop n ++ l2 := by
  intro n
  induction n with
  | zero => intro l1 l2 _; simp
  | succ m ih =>
    intro l1 l2 h
    cases l1 with
    | nil => simp at h
    | cons a rest =>
      simp only [List.cons_append, List.drop_succ_cons]
      exact ih rest l2 (by simpa using h)

lemma popLoop_spec :
    ∀ (k : Nat) (st : TagState), k ≤ st.stk.length →
      popLoop k st = { st with stk := st.stk.drop k,
                               fifo := st.fifo ++ st.stk.take k,
                               pops := st.pops ++ st.stk.take k } := by
  intro k
  induction k with
  | zero => intro st _; simp [popLoop]
  | succ m ih =>
    intro st h
    match hstk : st.stk with
    | [] => rw [hstk] at h; simp at h
    | top :: rest =>
      rw [hstk] at h
      simp only [popLoop, hstk]
      rw [ih _ (by simpa using h)]
      simp [List.append_assoc]

lemma popLoop_fifo_pops (k : Nat) (st : TagState) (h : st.fifo = st.pops) :
    (popLoop k st).fifo = (popLoop k st).pops := by
  induction k generalizing st with
  | zero => simpa [popLoop] using h
  | succ m ih =>
    match hstk : st.stk with
    | [] => simpa [popLoop, hstk] using h
    | top :: rest =>
      simp only [popLoop, hstk]
      exact ih _ (by simp [h])

lemma processTag_fifo_pops (starts ends : Bool) (st st' : TagState) (t : JsTag)
    (hinv : st.fifo = st.pops) (h : processTag starts ends st t = .ok st') :
    st'.fifo = st'.pops := by
  cases t with
  | str s =>
    match hstk : st.stk with
    | [] => simp only [processTag, hstk] at h; exact Except.noConfusion h
    | top :: rest =>
      simp only [processTag, hstk] at h
      split at h
      · injection h with h'; rw [← h']; exact hinv
      · split at h
        · injection h with h'; rw [← h']; exact hinv
        · split at h
          · split at h
            · injection h with h'; rw [← h']; exact hinv
            · injection h with h'; rw [← h']; simp [hinv]
          · injection h with h'; rw [← h']; exact hinv
  | obj o =>
    simp only [processTag] at h
    split at h
    · injection h with h'
      rw [← h']
      simp only [onetimePop]
      split
      · exact popLoop_fifo_pops _ _ hinv
      · exact popLoop_fifo_pops _ _ hinv
    · injection h with h'; rw [← h']; exact hinv
  | null =>
    simp only [processTag] at h
    split at h
    · exact Except.noConfusion h
    · injection h with h'; rw [← h']; exact hinv
  | num n => simp only [processTag] at h; injection h with h'; rw [← h']; exact hinv
  | bool b => simp only [processTag] at h; injection h with h'; rw [← h']; exact hinv

lemma processTags_fifo_pops (starts ends : Bool) :
    ∀ (ts : List JsTag) (st st' : TagState), st.fifo = st.pops →
      processTags starts ends st ts = .ok st' → st'.fifo = st'.pops := by
  intro ts
  induction ts with
  | nil => intro st st' hinv h; simp only [processTags] at h; injection h with h'; rw [← h']; exact hinv
  | cons t rest ih =>
    intro st st' hinv h
    simp only [processTags] at h
    cases hpt : processTag starts ends st t with
    | error e => rw [hpt] at h; exact absurd h (by simp)
    | ok st1 =>
      rw [hpt] at h
      exact ih st1 st' (processTag_fifo_pops starts ends st st1 t hinv hpt) h

lemma finishLine_stk (prevSpan : Option (List Char)) (starts ends : Bool)
    (stkOpt : Option (List StructElem)) (fifo pops : List StructElem)
    (lastTag : Option (List Char)) (lastElem : Option StructElem) (warnings : Nat) :
    (finishLine prevSpan starts ends stkOpt fifo pops lastTag lastElem warnings).stk = stkOpt := by
  cases ends <;> simp [finishLine]

lemma popLoop_root (k : Nat) (st : TagState) (pre : List StructElem)
    (hstk : st.stk = pre ++ [rootElem]) (hk : k ≤ pre.length) :
    ∃ pre', (popLoop k st).stk = pre' ++ [rootElem] := by
  refine ⟨pre.drop k, ?_⟩
  rw [popLoop_spec k st (by rw [hstk]; simp; omega)]
  show st.stk.drop k = pre.drop k ++ [rootElem]
  rw [hstk, dropAppendOfLe k pre [rootElem] hk]

lemma onetimePop_root (st : TagState) (o : Option Int) (pre : List StructElem)
    (hstk : st.stk = pre ++ [rootElem]) :
    ∃ pre', (onetimePop st o).stk = pre' ++ [rootElem] := by
  have hlen : st.stk.length = pre.length + 1 := by rw [hstk]; simp
  cases o with
  | none =>
    simp only [onetimePop]
    split
    · rename_i hgt; exfalso; omega
    · exact ⟨pre, by simpa [popLoop] using hstk⟩
  | some k =>
    simp only [onetimePop]
    by_cases hk0 : k = 0
    · subst hk0
      simp only [ne_eq, not_true_eq_false, if_false]
      split
      · rename_i hgt; exfalso; omega
      · exact ⟨pre, by simpa [popLoop] using hstk⟩
    · rw [if_pos hk0]
      split
      · rename_i hgt
        exact popLoop_root _ _ pre hstk (by omega)
      · rename_i hgt
        exact popLoop_root _ _ pre hstk (by omega)

lemma processTag_root (starts ends : Bool) (st st' : TagState) (t : JsTag)
    (pre : List StructElem)
    (hstk : st.stk = pre ++ [rootElem])
    (ht : t ≠ JsTag.str ('/' :: nDocument))
    (h : processTag starts ends st t = .ok st') :
    ∃ pre', st'.stk = pre' ++ [rootElem] := by
  cases t with
  | str s =>
    cases pre with
    | nil =>
      simp only [processTag, hstk, List.nil_append] at h
      split at h
      · injection h with h'; refine ⟨[], ?_⟩; rw [← h']; exact hstk
      · split at h
        · injection h with h'
          refine ⟨[{ id := st.fresh, name := s }], ?_⟩
          rw [← h']
          simp
        · split at h
          · split at h
            · injection h with h'
              refine ⟨[], ?_⟩
              rw [← h']
              simp
            · exfalso
              rename_i hs hop hcl hpn
              rw [Bool.and_eq_true, Bool.not_not] at hcl
              have hhd : s.head? = some '/' := by
                have := hcl.1
                simpa using this
              rw [not_not] at hpn
              cases s with
              | nil => exact hs rfl
              | cons c cs =>
                simp only [List.head?_cons, Option.some.injEq] at hhd
                have hcs : cs = nDocument := by
                  have h2 : rootElem.name = cs := hpn
                  simpa [rootElem] using h2.symm
                exact ht (by rw [hhd, hcs])
          · injection h with h'; refine ⟨[], ?_⟩; rw [← h']; exact hstk
    | cons p ps =>
      simp only [processTag, hstk, List.cons_append] at h
      split at h
      · injection h with h'; refine ⟨p :: ps, ?_⟩; rw [← h']; exact hstk
      · split at h
        · injection h with h'
          refine ⟨{ id := st.fresh, name := s } :: p :: ps, ?_⟩
          rw [← h']
          simp
        · split at h
          · split at h
            · injection h with h'
              refine ⟨p :: ps, ?_⟩
              rw [← h']
              simp
            · injection h with h'
              refine ⟨ps, ?_⟩
              rw [← h']
          · injection h with h'; refine ⟨p :: ps, ?_⟩; rw [← h']; exact hstk
  | obj o =>
    simp only [processTag] at h
    split at h
    · injection h with h'; rw [← h']; exact onetimePop_root st o pre hstk
    · injection h with h'; rw [← h']; exact ⟨pre, hstk⟩
  | null =>
    simp only [processTag] at h
    split at h
    · exact Except.noConfusion h
    · injection h with h'; rw [← h']; exact ⟨pre, hstk⟩
  | num n =>
    simp only [processTag] at h
    injection h with h'
    rw [← h']
    exact ⟨pre, hstk⟩
  | bool b =>
    simp only [processTag] at h
    injection h with h'
    rw [← h']
    exact ⟨pre, hstk⟩

lemma processTags_root (starts ends : Bool) :
    ∀ (ts : List JsTag) (st st' : TagState) (pre : List StructElem),
      st.stk = pre ++ [rootElem] →
      JsTag.str ('/' :: nDocument) ∉ ts →
      processTags starts ends st ts = .ok st' →
      ∃ pre', st'.stk = pre' ++ [rootElem] := by
  intro ts
  induction ts with
  | nil =>
    intro st st' pre hstk _ h
    simp only [processTags] at h
    injection h with h'
    rw [← h']
    exact ⟨pre, hstk⟩
  | cons t rest ih =>
    intro st st' pre hstk hmem h
    simp only [processTags] at h
    cases hpt : processTag starts ends st t with
    | error e => rw [hpt] at h; exact Except.noConfusion h
    | ok st1 =>
      rw [hpt] at h
      have ht : t ≠ JsTag.str ('/' :: nDocument) := by
        intro he
        exact hmem (he ▸ List.mem_cons_self t rest)
      obtain ⟨pre1, h1⟩ := processTag_root starts ends st st1 t pre hstk ht hpt
      exact ih st1 st' pre1 h1 (fun hm => hmem (List.mem_cons_of_mem _ hm)) h

lemma bump_foldl (l : List RItem) (a : ℚ) :
    l.foldl bumpHeight a = (l.map getBottomPosition).foldl max a := by
  induction l generalizing a with
  | nil => rfl
  | cons it rest ih =>
    simp only [List.foldl_cons, List.map_cons]
    rw [ih]
    congr 1
    unfold bumpHeight
    rcases le_or_lt (getBottomPosition it) a with hh | hh
    · rw [if_neg (not_lt.mpr hh), max_eq_left hh]
    · rw [if_pos hh, max_eq_right hh.le]

lemma pages_foldl (pages : List RPage) (a : ℚ) :
    pages.foldl (fun h page => page.items.foldl bumpHeight h) a
      = ((allItems pages).map getBottomPosition).foldl max a := by
  induction pages generalizing a with
  | nil => rfl
  | cons p rest ih =>
    simp only [List.foldl_cons]
    rw [ih, bump_foldl]
    show _ = (List.map getBottomPosition (p.items ++ allItems rest)).foldl max a
    rw [List.map_append, List.foldl_append]

/-! ## Claims -/

/-- Claim C1, counterexample.  The claim says the implicit document root is
never popped by any tag token.  But on a line with the endsNode property and
the single close tag whose text is a slash followed by Document, at the
moment the lazily created root is the stack top, the close-tag branch
matches the root by name, enqueues the root into the pending-closure queue
and pops it: the resulting stack is empty (and the root is even ended), so
the stack bottom is no longer the root. -/
theorem c1_root_popped_counterexample :
    renderLineStruct none 1 none ⟨[JsTag.str ('/' :: nDocument)], none, some true⟩
      = Except.ok ⟨some [], 0, [rootElem], [rootElem], [rootElem], none, false, none⟩ := rfl

/-- Claim C5, code bug.  The spec says every token that is neither a string
nor a well-formed onetime object is ignored with a warning and rendering
never aborts; it names null as an example.  In JS the typeof of null is the
string typeof shares with objects, so a null token enters the object branch
of the switch and reading its onetime field throws a TypeError, aborting the
render pass (first conjunct evaluates the engine at that failing input).
Tokens whose typeof is neither string nor object, such as numbers and
booleans, do reach the default branch and are ignored with exactly one
warning, the stack untouched (second and third conjuncts). -/
theorem c5_null_token_aborts :
    renderLineStruct none 1 none ⟨[JsTag.null], none, some true⟩
      = Except.error JsErr.typeError
    ∧ (∀ (starts ends : Bool) (st : TagState) (k : Int),
        processTag starts ends st (.num k) = .ok { st with warnings := st.warnings + 1 })
    ∧ (∀ (starts ends : Bool) (st : TagState) (b : Bool),
        processTag starts ends st (.bool b) = .ok { st with warnings := st.warnings + 1 }) :=
  ⟨rfl, fun _ _ _ _ => rfl, fun _ _ _ _ => rfl⟩

/-- Claim C6.  When a deferred page-number reference is resolved, with
delta equal to the old width minus the remeasured width, the inline x grows
by the delta for right alignment, by half the delta for center alignment,
and is unchanged for left or default alignment; the stored width becomes the
new width; in particular old width 50 and new width 30 give a shift of 20,
10 and 0 respectively. -/
theorem c6_pageref_alignment (x w w' : ℚ) :
    (preparePageNodeRef ⟨x, w, .right⟩ w').x = x + (w - w')
    ∧ (preparePageNodeRef ⟨x, w, .center⟩ w').x = x + (w - w') / 2
    ∧ (preparePageNodeRef ⟨x, w, .left⟩ w').x = x
    ∧ (preparePageNodeRef ⟨x, w, .other⟩ w').x = x
    ∧ (preparePageNodeRef ⟨x, w, .right⟩ w').width = w'
    ∧ (preparePageNodeRef ⟨x, w, .center⟩ w').width = w'
    ∧ (preparePageNodeRef ⟨x, w, .left⟩ w').width = w'
    ∧ (preparePageNodeRef ⟨x, 50, .right⟩ 30).x = x + 20
    ∧ (preparePageNodeRef ⟨x, 50, .center⟩ 30).x = x + 10
    ∧ (preparePageNodeRef ⟨x, 50, .left⟩ 30).x = x := by
  refine ⟨rfl, rfl, rfl, rfl, rfl, rfl, rfl, ?_, ?_, rfl⟩
  · show x + (50 - 30 : ℚ) = x + 20
    norm_num
  · show x + (50 - 30 : ℚ) / 2 = x + 10
    norm_num

/-- Claim C8.  During rendering, for every current physical size and every
page orientation, each page after the first swaps the backend width and
height exactly when its orientation differs from the orientation implied by
the backend's current physical size (width greater than height meaning
landscape), and leaves the size unchanged otherwise (first two conjuncts,
with no restriction on the current size); the third conjunct shows a
landscape-sized document whose next page is portrait and the one after is
landscape again: the size is swapped once before the portrait page and
swapped back before the following page. -/
theorem c8_orientation_swap (s : SizeWH) (o : Orient) :
    (o ≠ impliedOrientation s → updatePageOrientationInOptions o s = ⟨s.h, s.w⟩)
    ∧ (o = impliedOrientation s → updatePageOrientationInOptions o s = s)
    ∧ (impliedOrientation s = .landscape →
        renderPageSizes s [.portrait, .landscape] = [s, ⟨s.h, s.w⟩, s]) := by
  refine ⟨?_, ?_, ?_⟩
  · intro hne
    rw [updatePageOrientationInOptions, if_pos hne]
  · intro heq
    rw [updatePageOrientationInOptions, if_neg (by simp [heq])]
  · intro hl
    have hw : s.h < s.w := by
      by_contra hc
      rw [impliedOrientation, if_neg hc] at hl
      exact Orient.noConfusion hl
    have h1 : updatePageOrientationInOptions .portrait s = ⟨s.h, s.w⟩ := by
      rw [updatePageOrientationInOptions, if_pos (by simp [hl])]
    have h2 : updatePageOrientationInOptions .landscape ⟨s.h, s.w⟩ = ⟨s.w, s.h⟩ := by
      rw [updatePageOrientationInOptions, if_pos]
      rw [impliedOrientation]
      rw [if_neg (by exact not_lt.mpr hw.le)]
      simp
    have h3 : (⟨s.w, s.h⟩ : SizeWH) = s := rfl
    simp only [renderPageSizes, List.scanl, h1, h2, h3]

/-- Witness for claim C8: a portrait page on a landscape-sized backend
swaps, a portrait page on a portrait-sized backend does not, and the
landscape, portrait, landscape document swaps once and swaps back. -/
theorem c8_orientation_swap_witness :
    updatePageOrientationInOptions .portrait ⟨4, 3⟩ = ⟨3, 4⟩
    ∧ updatePageOrientationInOptions .portrait ⟨3, 4⟩ = ⟨3, 4⟩
    ∧ renderPageSizes ⟨4, 3⟩ [.portrait, .landscape] = [⟨4, 3⟩, ⟨3, 4⟩, ⟨4, 3⟩] := by
  have h1 := c8_orientation_swap ⟨4, 3⟩ .portrait
  have h2 := c8_orientation_swap ⟨3, 4⟩ .portrait
  exact ⟨h1.1 (by decide), h2.2.1 (by decide), h1.2.2 (by decide)⟩

/-- Claim C9, counterexample.  The claim says every margin value of a shape
other than a scalar, a pair or a four-element sequence fails with a typed
configuration error; but fixPageMargins only throws for arrays of other
lengths, and returns any non-number non-array value, such as an object or
any other value, unchanged without error. -/
theorem c9_margins_counterexample :
    fixPageMargins (JsMargin.obj 1 2 3 4) = Except.ok (JsMargin.obj 1 2 3 4)
    ∧ fixPageMargins JsMargin.other = Except.ok JsMargin.other := ⟨rfl, rfl⟩

/-- Claim C9, amended.  Margin resolution maps a scalar to four equal sides,
a two-element array to horizontal and vertical, and a four-element array to
left, top, right, bottom; an array of any other length throws; every
non-number non-array value (an object, or anything else) is returned
unchanged rather than rejected. -/
theorem c9_margins_amended (m hq v a b c d : ℚ) (l : List ℚ)
    (h2 : l.length ≠ 2) (h4 : l.length ≠ 4) :
    fixPageMargins (.num m) = .ok (.obj m m m m)
    ∧ fixPageMargins (.arr [hq, v]) = .ok (.obj hq v hq v)
    ∧ fixPageMargins (.arr [a, b, c, d]) = .ok (.obj a b c d)
    ∧ fixPageMargins (.arr l) = .error ()
    ∧ fixPageMargins (.obj a b c d) = .ok (.obj a b c d)
    ∧ fixPageMargins .other = .ok .other := by
  refine ⟨rfl, rfl, rfl, ?_, rfl, rfl⟩
  match l with
  | [] => rfl
  | [x1] => rfl
  | [x1, x2] => exact absurd rfl h2
  | [x1, x2, x3] => rfl
  | [x1, x2, x3, x4] => exact absurd rfl h4
  | x1 :: x2 :: x3 :: x4 :: x5 :: tl => rfl

/-- Witness for claim C9 at a scalar margin and a three-element array. -/
theorem c9_margins_amended_witness :
    fixPageMargins (JsMargin.arr [1, 2, 3]) = Except.error ()
    ∧ fixPageMargins (JsMargin.num 5) = Except.ok (JsMargin.obj 5 5 5 5) := by
  have h := c9_margins_amended 5 1 2 1 2 3 4 [1, 2, 3] (by decide) (by decide)
  exact ⟨h.2.2.2.1, h.1⟩

/-- Claim C10.  The line renderer tests startsNode and endsNode by property
presence, not value: a line carrying the flag with value false is processed
exactly like the same line carrying it with value true, for both flags; the
third conjunct shows a line with startsNode false still opening a structure
element and a marked-content span. -/
theorem c10_flag_presence (l : JsLine) (prevStk : Option (List StructElem))
    (fresh : Nat) (prevSpan : Option (List Char)) :
    (renderLineStruct prevStk fresh prevSpan { l with startsNodeField := some false }
      = renderLineStruct prevStk fresh prevSpan { l with startsNodeField := some true })
    ∧ (renderLineStruct prevStk fresh prevSpan { l with endsNodeField := some false }
      = renderLineStruct prevStk fresh prevSpan { l with endsNodeField := some true })
    ∧ renderLineStruct none 1 none ⟨[JsTag.str nTable], some false, none⟩
      = Except.ok ⟨some [⟨1, nTable⟩, rootElem], 0, [], [], [], some nTable, false, none⟩ :=
  ⟨rfl, rfl, rfl⟩

/-- Claim C1, amended.  Provided no token of the line is the close tag whose
text is a slash followed by Document (the only token able to close the
root by name, per the counterexample), the root is never popped: whenever the
incoming stack either does not exist yet or has the root at its bottom, and
the line completes without throwing, the resulting stack either still does
not exist (no tag phase ran on a fresh pass) or is non-empty with the root
as its bottom element.  In particular the onetime-pop clamp never lets an
onetime token pop the root. -/
theorem c1_root_amended (prevStk : Option (List StructElem)) (fresh : Nat)
    (prevSpan : Option (List Char)) (line : JsLine) (r : LineResult)
    (hno : JsTag.str ('/' :: nDocument) ∉ line.tags)
    (hroot : prevStk = none ∨ ∃ pre, prevStk = some (pre ++ [rootElem]))
    (h : renderLineStruct prevStk fresh prevSpan line = .ok r) :
    (∃ pre', r.stk = some (pre' ++ [rootElem])) ∨ (r.stk = none ∧ prevStk = none) := by
  simp only [renderLineStruct, renderLineCore] at h
  split at h
  · split at h
    · exact Except.noConfusion h
    · rename_i st1 hps
      injection h with h'
      have hpre0 : ∃ pre0, (emptyTagState (prevStk.getD [rootElem]) fresh).stk
          = pre0 ++ [rootElem] := by
        rcases hroot with hnone | ⟨pre, hsome⟩
        · exact ⟨[], by rw [hnone]; rfl⟩
        · exact ⟨pre, by rw [hsome]; rfl⟩
      obtain ⟨pre0, hpre0⟩ := hpre0
      obtain ⟨pre', hst⟩ :=
        processTags_root _ _ line.tags _ st1 pre0 hpre0 hno hps
      left
      refine ⟨pre', ?_⟩
      rw [← h', finishLine_stk, hst]
  · injection h with h'
    rcases hroot with hnone | ⟨pre, hsome⟩
    · right
      exact ⟨by rw [← h', finishLine_stk, hnone], hnone⟩
    · left
      exact ⟨pre, by rw [← h', finishLine_stk, hsome]⟩

/-- Witness for claim C1 on a fresh pass opening one table element. -/
theorem c1_root_amended_witness :
    (∃ pre', (⟨some [⟨1, nTable⟩, rootElem], 0, [], [], [], some nTable, false, none⟩
        : LineResult).stk = some (pre' ++ [rootElem]))
    ∨ ((⟨some [⟨1, nTable⟩, rootElem], 0, [], [], [], some nTable, false, none⟩
        : LineResult).stk = none ∧ (none : Option (List StructElem)) = none) :=
  c1_root_amended none 1 none ⟨[JsTag.str nTable], some true, none⟩
    ⟨some [⟨1, nTable⟩, rootElem], 0, [], [], [], some nTable, false, none⟩
    (by decide) (Or.inl rfl) rfl

/-- Claim C2.  On a line that ends a node, a well-formed onetime token with a
positive count n behaves as follows: when n is at most the stack depth minus
one, exactly n elements are popped off the top of the stack and appended to
the pending-closure queue in pop order, the remainder of the stack (hence
also the bottom, the root) is untouched, and the warning counter is
unchanged; when n exceeds the stack depth minus one, the count is clamped to
depth minus one, exactly that many elements are popped and enqueued, and
exactly one warning is emitted. -/
theorem c2_onetime_pop (starts : Bool) (st : TagState) (n : Int)
    (h1 : 1 ≤ n) (h2 : st.stk ≠ []) :
    (n ≤ (st.stk.length : Int) - 1 →
      processTag starts true st (.obj (some n)) =
        .ok { st with stk := st.stk.drop n.toNat,
                      fifo := st.fifo ++ st.stk.take n.toNat,
                      pops := st.pops ++ st.stk.take n.toNat })
    ∧ ((st.stk.length : Int) - 1 < n →
      processTag starts true st (.obj (some n)) =
        .ok { st with stk := st.stk.drop (st.stk.length - 1),
                      fifo := st.fifo ++ st.stk.take (st.stk.length - 1),
                      pops := st.pops ++ st.stk.take (st.stk.length - 1),
                      warnings := st.warnings + 1 }) := by
  have hlen : 1 ≤ st.stk.length := by
    cases hs : st.stk with
    | nil => exact absurd hs h2
    | cons a l => simp [hs]
  have hn0 : n ≠ 0 := by omega
  constructor
  · intro hle
    show Except.ok (onetimePop st (some n)) = _
    congr 1
    simp only [onetimePop]
    rw [if_pos hn0]
    rw [if_neg (by omega : ¬(n > (st.stk.length : Int) - 1))]
    rw [popLoop_spec n.toNat st (by omega)]
  · intro hgt
    show Except.ok (onetimePop st (some n)) = _
    congr 1
    simp only [onetimePop]
    rw [if_pos hn0]
    rw [if_pos (by omega : n > (st.stk.length : Int) - 1)]
    have hk : ((st.stk.length : Int) - 1).toNat = st.stk.length - 1 := by omega
    rw [hk]
    rw [popLoop_spec (st.stk.length - 1)
      { st with warnings := st.warnings + 1 }
      (by show st.stk.length - 1 ≤ st.stk.length; omega)]

/-- Witness for claim C2 on a three-deep stack and a onetime count of one. -/
theorem c2_onetime_pop_witness :
    processTag false true (emptyTagState [⟨1, nTD⟩, ⟨2, nTR⟩, rootElem] 3) (.obj (some 1))
      = .ok { emptyTagState [⟨1, nTD⟩, ⟨2, nTR⟩, rootElem] 3 with
              stk := [⟨2, nTR⟩, rootElem], fifo := [⟨1, nTD⟩], pops := [⟨1, nTD⟩] } := by
  have h := (c2_onetime_pop false (emptyTagState [⟨1, nTD⟩, ⟨2, nTR⟩, rootElem] 3) 1
    (by decide) (by decide)).1 (by decide)
  rw [h]
  rfl

/-- Claim C3.  A close tag token whose name does not match the name of the
current stack top, on a line that ends a node, performs no pop: the stack,
the pending-closure queue, the pop record and every other engine field are
unchanged, and exactly one warning is emitted. -/
theorem c3_close_mismatch (starts : Bool) (st : TagState) (top : StructElem)
    (rest : List StructElem) (nm : List Char)
    (hstk : st.stk = top :: rest) (hname : top.name ≠ nm) :
    processTag starts true st (.str ('/' :: nm))
      = .ok { st with warnings := st.warnings + 1 } := by
  simp [processTag, hstk, hname]

/-- Witness for claim C3 closing TR while TD is open. -/
theorem c3_close_mismatch_witness :
    processTag false true (emptyTagState [⟨5, nTD⟩, rootElem] 6) (.str ('/' :: nTR))
      = .ok { emptyTagState [⟨5, nTD⟩, rootElem] 6 with warnings := 1 } := by
  have h := c3_close_mismatch false (emptyTagState [⟨5, nTD⟩, rootElem] 6)
    ⟨5, nTD⟩ [rootElem] nTR rfl (by decide)
  exact h

/-- Claim C4.  On every line that ends a node and completes without
throwing, the elements ended at the end of the line are exactly the final
pending-closure queue, in queue order, and that queue is exactly the
sequence of elements popped from the stack in pop order: closures happen
first-in first-out relative to the last-in first-out pops (the last-opened
element is popped first, hence closed first), and every enqueued element is
ended regardless of whether a content span was attached to it. -/
theorem c4_fifo_closure (prevStk : Option (List StructElem)) (fresh : Nat)
    (prevSpan : Option (List Char)) (line : JsLine) (r : LineResult)
    (hE : line.endsNodeField.isSome = true)
    (h : renderLineStruct prevStk fresh prevSpan line = .ok r) :
    r.endedElems = r.fifoFinal ∧ r.fifoFinal = r.popsOrder := by
  simp only [renderLineStruct, renderLineCore] at h
  split at h
  · split at h
    · exact Except.noConfusion h
    · rename_i st1 hps
      injection h with h'
      have hfp : st1.fifo = st1.pops :=
        processTags_fifo_pops _ _ line.tags (emptyTagState (prevStk.getD [rootElem]) fresh)
          st1 rfl hps
      rw [← h', hE]
      constructor
      · simp [finishLine, endAllFifo_eq]
      · simp [finishLine, hfp]
  · injection h with h'
    rw [← h', hE]
    constructor
    · simp [finishLine, endAllFifo_eq]
    · simp [finishLine]

/-- Witness for claim C4 on a line closing TD then TR. -/
theorem c4_fifo_closure_witness :
    ((⟨some [rootElem], 0, [⟨1, nTD⟩, ⟨2, nTR⟩], [⟨1, nTD⟩, ⟨2, nTR⟩],
        [⟨1, nTD⟩, ⟨2, nTR⟩], none, false, none⟩ : LineResult).endedElems
      = (⟨some [rootElem], 0, [⟨1, nTD⟩, ⟨2, nTR⟩], [⟨1, nTD⟩, ⟨2, nTR⟩],
        [⟨1, nTD⟩, ⟨2, nTR⟩], none, false, none⟩ : LineResult).fifoFinal)
    ∧ ((⟨some [rootElem], 0, [⟨1, nTD⟩, ⟨2, nTR⟩], [⟨1, nTD⟩, ⟨2, nTR⟩],
        [⟨1, nTD⟩, ⟨2, nTR⟩], none, false, none⟩ : LineResult).fifoFinal
      = (⟨some [rootElem], 0, [⟨1, nTD⟩, ⟨2, nTR⟩], [⟨1, nTD⟩, ⟨2, nTR⟩],
        [⟨1, nTD⟩, ⟨2, nTR⟩], none, false, none⟩ : LineResult).popsOrder) :=
  c4_fifo_closure (some [⟨1, nTD⟩, ⟨2, nTR⟩, rootElem]) 3 none
    ⟨[.str ('/' :: nTD), .str ('/' :: nTR)], none, some true⟩
    ⟨some [rootElem], 0, [⟨1, nTD⟩, ⟨2, nTR⟩], [⟨1, nTD⟩, ⟨2, nTR⟩],
      [⟨1, nTD⟩, ⟨2, nTR⟩], none, false, none⟩
    rfl rfl

/-- Claim C7.  For an unbounded-height document whose margins resolve to a
four-sided object, the computed page height is the maximum, over every item
of every page, of the item's bottom position (its y, or zero when absent,
plus its height per getItemHeight, which is zero for items without an
intrinsic height), floored at the top margin, plus the bottom margin.  The
fold starting at the top margin is exactly that floored maximum. -/
theorem c7_auto_height (pages : List RPage) (margin : JsMargin) (l t rr b : ℚ)
    (hm : fixPageMargins margin = .ok (.obj l t rr b)) :
    calculatePageHeight pages margin
      = some (((allItems pages).map getBottomPosition).foldl max t + b) := by
  simp only [calculatePageHeight, hm]
  rw [pages_foldl]

/-- Witness for claim C7 on the spec's example: items with bottom positions
150, 320 and 15 under a scalar margin of 40 give a page height of 360. -/
theorem c7_auto_height_witness :
    calculatePageHeight
      [⟨[⟨none, some 50, false, some 100, 0, 0⟩,
         ⟨none, some 20, false, some 300, 0, 0⟩,
         ⟨none, some 5, false, some 10, 0, 0⟩]⟩]
      (JsMargin.num 40) = some 360 := by
  have h := c7_auto_height
    [⟨[⟨none, some 50, false, some 100, 0, 0⟩,
       ⟨none, some 20, false, some 300, 0, 0⟩,
       ⟨none, some 5, false, some 10, 0, 0⟩]⟩]
    (JsMargin.num 40) 40 40 40 40 rfl
  rw [h]
  norm_num [allItems, getBottomPosition, getItemHeight, List.foldl, max_def]
